import Mathlib

/-!
Verification of the lix-cache operation-coalescing and deduplication engine.

The definitions below are a shallow embedding of the TypeScript SDK client
(lix-cache-sdk/src/client.ts), its HTTP layer (http.ts) and the Elixir
cache server router (LixCacheApi.Router).  JSON/JS values are modelled by
an inductive `Val` (including the JS `undefined`), the remote store by an
association list of entries, promises by explicit outcome values, and the
single-threaded cooperative scheduling of the JS host by the sequential
order in which the embedded functions are composed.
-/

namespace LixCache

/-- JS/JSON values as they travel between client and server.  `vUndefined`
is the JS undefined (an absent JSON field); the server never produces it,
but the client's dispatch code distinguishes it from null. -/
inductive Val where
  | vNull
  | vUndefined
  | vBool (b : Bool)
  | vNum (n : Int)
  | vStr (s : String)
  deriving DecidableEq, Repr

/-- Errors surfaced by the SDK (errors.ts) plus producer-thrown errors. -/
inductive Err where
  | timeoutFailure (ms : Nat)
  | connectionFailure
  | serverFailure (status : Nat)
  | producerFailure (msg : String)
  deriving DecidableEq, Repr

/-- One stored cache entry.  `expiry` is the effective ttl the server
attached when the entry was written (`none` when stored without ttl). -/
structure Entry where
  key : String
  value : Val
  expiry : Option Nat
  deriving DecidableEq, Repr

/-- The remote store state: Cachex, modelled as an association list. -/
abbrev Store := List Entry

/-- Cachex.get: first entry with the key, if any. -/
def storeGet (s : Store) (k : String) : Option Val :=
  (s.find? (fun e => e.key == k)).map (fun e => e.value)

/-- Cachex.del: drop every entry with the key. -/
def storeDel (s : Store) (k : String) : Store :=
  s.filter (fun e => e.key != k)

/-- Cachex.put: replace any entry for the key with the new one. -/
def storePut (s : Store) (k : String) (v : Val) (t : Option Nat) : Store :=
  storeDel s k ++ [⟨k, v, t⟩]

/-- Cachex.keys: all stored keys. -/
def storeKeys (s : Store) : List String :=
  s.map (fun e => e.key)

/-- The server router's ttl rule for writes: `if ttl && ttl > 0` — a ttl of
0 (or an absent ttl) stores the entry without expiry (JS 0 is falsy). -/
def effTtl : Option Nat → Option Nat
  | some t => if 0 < t then some t else none
  | none => none

/-- Elixir String.starts_with?, modelled on the character sequence. -/
def startsWith (pre k : String) : Bool :=
  pre.data.isPrefixOf k.data

/-- GET /cache/scan handler: list all keys, keep those with the prefix,
and read each one back (LixCacheApi.Router, scan route). -/
def scanStore (s : Store) (pre : String) : List (String × Val) :=
  ((storeKeys s).filter (fun k => startsWith pre k)).map
    (fun k => (k, (storeGet s k).getD Val.vNull))

/-- The value a batched client `get` resolves with: the server answers a
batch read with the stored value, JSON null when absent, and the client's
resolve converts undefined to null (client.ts get, lines 242-245).  The
wire never carries undefined, so this composition is the stored value or
null. -/
def batchedGet (s : Store) (k : String) : Val :=
  match storeGet s k with
  | some v => v
  | none => Val.vNull

/-- The store after a batched client `set key value ttl` round-trips
through the server's batch write handler. -/
def batchedSet (s : Store) (k : String) (v : Val) (t : Option Nat) : Store :=
  storePut s k v (effTtl t)

/-!
The remember body (client.ts lines 609-628):

    try   cached ← this.get key
          if cached ≠ null then return cached
          value ← fallback ()
          this.set key value ttl
          return value

Each awaited step can fail: the read and the write reject when their batch
exchange fails in transport (`readFault` / `writeFault`), and the producer
may throw.  The function returns the settled outcome, the resulting store,
and whether the producer was invoked.
-/

/-- One run of the remember fetch-or-compute-and-store sequence. -/
def rememberSeq (s : Store) (key : String) (ttl : Option Nat)
    (producer : Except Err Val)
    (readFault writeFault : Option Err) :
    Except Err Val × Store × Bool :=
  match readFault with
  | some e => (Except.error e, s, false)
  | none =>
    let cached := batchedGet s key
    if cached ≠ Val.vNull then
      (Except.ok cached, s, false)
    else
      match producer with
      | Except.error e => (Except.error e, s, true)
      | Except.ok v =>
        match writeFault with
        | some e => (Except.error e, s, true)
        | none => (Except.ok v, batchedSet s key v ttl, true)

/-- Look a full entry up, to speak about the stored ttl. -/
def storeFind (s : Store) (k : String) : Option Entry :=
  s.find? (fun e => e.key == k)

theorem storeFind_storePut_self (s : Store) (k : String) (v : Val) (t : Option Nat) :
    storeFind (storePut s k v t) k = some ⟨k, v, t⟩ := by
  unfold storeFind storePut storeDel
  induction s with
  | nil => simp [List.find?]
  | cons e rest ih =>
    by_cases h : e.key = k
    · simp only [List.filter_cons]
      have : (e.key != k) = false := by simp [bne_iff_ne, h]
      simp only [this, if_false]
      exact ih
    · simp only [List.filter_cons]
      have hne : (e.key != k) = true := by simp [bne_iff_ne, h]
      simp only [hne, if_true]
      rw [List.cons_append, List.find?]
      have : (e.key == k) = false := by simp [h]
      simp only [this]
      exact ih

theorem storeGet_storePut_self (s : Store) (k : String) (v : Val) (t : Option Nat) :
    storeGet (storePut s k v t) k = some v := by
  have h := storeFind_storePut_self s k v t
  unfold storeFind at h
  unfold storeGet
  rw [h]
  rfl

theorem storeFind_storePut_other (s : Store) (k k' : String) (v : Val)
    (t : Option Nat) (h : k' ≠ k) :
    storeFind (storePut s k v t) k' = storeFind s k' := by
  unfold storeFind storePut storeDel
  induction s with
  | nil =>
    have : (k == k') = false := by
      simp only [beq_eq_false_iff_ne]
      exact fun hc => h hc.symm
    simp [List.find?, this]
  | cons e rest ih =>
    by_cases he : e.key = k
    · have hne : (e.key == k') = false := by
        simp only [beq_eq_false_iff_ne, he]
        exact fun hc => h hc.symm
      simp only [List.filter_cons]
      have : (e.key != k) = false := by simp [bne_iff_ne, he]
      simp only [this, if_false]
      rw [List.find?]
      simp only [hne]
      exact ih
    · simp only [List.filter_cons]
      have : (e.key != k) = true := by simp [bne_iff_ne, he]
      simp only [this, if_true]
      rw [List.cons_append, List.find?, List.find?]
      cases hek : (e.key == k') with
      | true => rfl
      | false => exact ih

theorem storeGet_storePut_other (s : Store) (k k' : String) (v : Val)
    (t : Option Nat) (h : k' ≠ k) :
    storeGet (storePut s k v t) k' = storeGet s k' := by
  have hf := storeFind_storePut_other s k k' v t h
  unfold storeFind at hf
  unfold storeGet
  rw [hf]

/-- C2: remember(key, producer, ttl) is cache-aside.  A non-null read
settles with the cached value and the producer is never invoked; an empty
read invokes the producer, writes its result under the key with the given
ttl, and settles with that result; a failing read, producer, or write
rejects the call. -/
theorem remember_cache_aside
    (s : Store) (key : String) (ttl : Option Nat) (p : Except Err Val)
    (rf wf : Option Err) (v : Val) (e : Err) :
    (rf = none → storeGet s key = some v → v ≠ Val.vNull →
        rememberSeq s key ttl p rf wf = (Except.ok v, s, false))
  ∧ (rf = none → batchedGet s key = Val.vNull → wf = none →
        rememberSeq s key ttl (Except.ok v) rf wf
          = (Except.ok v, batchedSet s key v ttl, true)
        ∧ storeFind (batchedSet s key v ttl) key = some ⟨key, v, effTtl ttl⟩)
  ∧ (rf = some e →
        (rememberSeq s key ttl p rf wf).1 = Except.error e)
  ∧ (rf = none → batchedGet s key = Val.vNull →
        (rememberSeq s key ttl (Except.error e) rf wf).1 = Except.error e)
  ∧ (rf = none → batchedGet s key = Val.vNull → wf = some e →
        (rememberSeq s key ttl (Except.ok v) rf wf).1 = Except.error e) := by
  refine ⟨?_, ?_, ?_, ?_, ?_⟩
  · intro hrf hv hne
    subst hrf
    have hb : batchedGet s key = v := by simp [batchedGet, hv]
    simp [rememberSeq, hb, hne]
  · intro hrf hb hwf
    subst hrf; subst hwf
    refine ⟨?_, ?_⟩
    · simp [rememberSeq, hb]
    · exact storeFind_storePut_self s key v (effTtl ttl)
  · intro hrf
    subst hrf
    simp [rememberSeq]
  · intro hrf hb
    subst hrf
    simp [rememberSeq, hb]
  · intro hrf hb hwf
    subst hrf; subst hwf
    simp [rememberSeq, hb]

/-- Witness for C2: concrete run of the cache-miss branch on an empty
store. -/
theorem remember_cache_aside_witness :
    rememberSeq [] "K" (some 60) (Except.ok (Val.vNum 7)) none none
      = (Except.ok (Val.vNum 7), batchedSet [] "K" (Val.vNum 7) (some 60), true) :=
  ((remember_cache_aside [] "K" (some 60) (Except.ok (Val.vNum 7)) none none
      (Val.vNum 7) Err.connectionFailure).2.1 rfl (by decide) rfl).1

/-- C7: when the producer throws on a cache miss, remember rejects with
the producer's error, the store is unchanged, and a subsequent plain read
of the key resolves null. -/
theorem remember_producer_failure_not_persisted
    (s : Store) (key : String) (ttl : Option Nat) (e : Err)
    (h : storeGet s key = none) :
    rememberSeq s key ttl (Except.error e) none none = (Except.error e, s, true)
    ∧ batchedGet s key = Val.vNull := by
  have hb : batchedGet s key = Val.vNull := by simp [batchedGet, h]
  exact ⟨by simp [rememberSeq, hb], hb⟩

/-- Witness for C7: a throwing producer on an empty store. -/
theorem remember_producer_failure_not_persisted_witness :
    rememberSeq [] "K" none (Except.error (Err.producerFailure "boom")) none none
      = (Except.error (Err.producerFailure "boom"), [], true)
    ∧ batchedGet [] "K" = Val.vNull :=
  remember_producer_failure_not_persisted [] "K" none
    (Err.producerFailure "boom") (by decide)

/-!
The automatic batching engine (client.ts lines 44-131, 158-288) and the
server batch endpoint (LixCacheApi.Router, post "/cache/batch").
-/

/-- Wire operations of the batch exchange (types.ts BatchOperation). -/
inductive BatchOp where
  | getOp (key : String)
  | setOp (key : String) (value : Val) (ttl : Option Nat)
  | deleteOp (key : String)
  deriving DecidableEq, Repr

/-- Wire results of the batch exchange.  The first three constructors are
types.ts BatchResult; `errR` stands for a JSON result object whose op tag
is none of get/set/delete (the only runtime shape an explicit per-op
error could take — the declared result type has no error variant). -/
inductive BatchRes where
  | getR (key : String) (value : Val)
  | setR (key : String) (success : Bool)
  | deleteR (key : String) (success : Bool)
  | errR (key : String) (msg : String)
  deriving DecidableEq, Repr

/-- One server-side batch step (Router batch route): a read answers the
stored value (JSON null when absent), a write stores and answers success
unconditionally (the Cachex.put outcome is discarded), a remove deletes
and answers success unconditionally. -/
def serverOpRun (s : Store) : BatchOp → BatchRes × Store
  | BatchOp.getOp k => (BatchRes.getR k ((storeGet s k).getD Val.vNull), s)
  | BatchOp.setOp k v t => (BatchRes.setR k true, storePut s k v (effTtl t))
  | BatchOp.deleteOp k => (BatchRes.deleteR k true, storeDel s k)

/-- The server batch endpoint: Enum.map over the operations in order,
each against the store as left by its predecessors. -/
def serverBatch (s : Store) : List BatchOp → List BatchRes × Store
  | [] => ([], s)
  | op :: ops =>
    let p := serverOpRun s op
    let q := serverBatch p.2 ops
    (p.1 :: q.1, q.2)

/-- How a caller attached to a queue item settles a delivered value:
the original get caller converts undefined to null (client.ts line 244);
callers attached by read-collapsing, and set/delete callers, receive the
raw value. -/
inductive CallerKind where
  | baseGet
  | joinedGet
  | setCaller
  | deleteCaller
  deriving DecidableEq, Repr

/-- One batchQueue entry: the operation plus the completion handles
attached to it, in attachment order (the dedup wrapping in client.ts
lines 219-232 invokes the original resolve first, then the new one). -/
structure QueueItem where
  operation : BatchOp
  callers : List (Nat × CallerKind)
  deriving DecidableEq, Repr

/-- Settlement of a completion handle. -/
inductive Outcome where
  | fulfilled (v : Val)
  | rejected (e : Err)
  deriving DecidableEq, Repr

/-- The client engine state: the pending queue, the scheduled flag, and a
counter handing out completion-handle ids. -/
structure EngineState where
  batchQueue : List QueueItem
  batchScheduled : Bool
  nextHandle : Nat
  deriving DecidableEq, Repr

def idleEngine : EngineState := ⟨[], false, 0⟩

/-- scheduleBatch (client.ts lines 84-91): idempotent within one cycle. -/
def scheduleBatch (st : EngineState) : EngineState :=
  if st.batchScheduled then st else { st with batchScheduled := true }

/-- LixCache.set: push a set operation and schedule the flush. -/
def clientSet (st : EngineState) (k : String) (v : Val) (t : Option Nat) :
    EngineState × Nat :=
  let h := st.nextHandle
  (scheduleBatch { st with
      batchQueue := st.batchQueue ++ [⟨BatchOp.setOp k v t, [(h, CallerKind.setCaller)]⟩],
      nextHandle := h + 1 }, h)

/-- LixCache.delete: push a delete operation and schedule the flush. -/
def clientDelete (st : EngineState) (k : String) : EngineState × Nat :=
  let h := st.nextHandle
  (scheduleBatch { st with
      batchQueue := st.batchQueue ++ [⟨BatchOp.deleteOp k, [(h, CallerKind.deleteCaller)]⟩],
      nextHandle := h + 1 }, h)

/-- Does the not-yet-flushed queue already hold a read for this key
(the batchQueue.find scan in client.ts lines 213-215)? -/
def hasQueuedGet (q : List QueueItem) (k : String) : Bool :=
  q.any (fun item =>
    match item.operation with
    | BatchOp.getOp k' => k' == k
    | _ => false)

/-- Attach a new listener to the first queued read for the key (the
resolve/reject wrapping in client.ts lines 219-232). -/
def attachJoined (q : List QueueItem) (k : String) (h : Nat) : List QueueItem :=
  match q with
  | [] => []
  | item :: rest =>
    match item.operation with
    | BatchOp.getOp k' =>
      if k' == k then
        { item with callers := item.callers ++ [(h, CallerKind.joinedGet)] } :: rest
      else
        item :: attachJoined rest k h
    | _ => item :: attachJoined rest k h

/-- LixCache.get: collapse onto an existing queued read for the key, or
push a new read operation and schedule the flush. -/
def clientGet (st : EngineState) (k : String) : EngineState × Nat :=
  let h := st.nextHandle
  if hasQueuedGet st.batchQueue k then
    ({ st with batchQueue := attachJoined st.batchQueue k h, nextHandle := h + 1 }, h)
  else
    (scheduleBatch { st with
        batchQueue := st.batchQueue ++ [⟨BatchOp.getOp k, [(h, CallerKind.baseGet)]⟩],
        nextHandle := h + 1 }, h)

/-- The value flushBatch passes to a queued item's resolve for a given
result (client.ts lines 119-125): the read value for a get result,
undefined for set and delete results, and nothing at all — the if/else-if
chain matches no branch and neither resolve nor reject runs — for any
other result shape. -/
def resolveValue : BatchRes → Option Val
  | BatchRes.getR _ v => some v
  | BatchRes.setR _ _ => some Val.vUndefined
  | BatchRes.deleteR _ _ => some Val.vUndefined
  | BatchRes.errR _ _ => none

/-- What a caller's resolve does with the delivered value. -/
def callerResolve : CallerKind → Val → Val
  | CallerKind.baseGet, v => if v = Val.vUndefined then Val.vNull else v
  | _, v => v

/-- Settle one queue item with the result at its position: every attached
caller is notified, in attachment order, with its own resolve. -/
def settleItem (item : QueueItem) (r : BatchRes) : List (Nat × Outcome) :=
  match resolveValue r with
  | some v => item.callers.map (fun c => (c.1, Outcome.fulfilled (callerResolve c.2 v)))
  | none => []

/-- The positional fan-out of flushBatch (lines 116-126): result at index
i settles the queue item at index i. -/
def dispatchResults : List QueueItem → List BatchRes → List (Nat × Outcome)
  | _, [] => []
  | [], _ :: _ => []
  | item :: q, r :: rs => settleItem item r ++ dispatchResults q rs

/-- The catch branch of flushBatch (lines 127-130): every handle of every
snapshot item is rejected with the one transport error. -/
def rejectAll (q : List QueueItem) (e : Err) : List (Nat × Outcome) :=
  (q.map (fun item => item.callers.map (fun c => (c.1, Outcome.rejected e)))).flatten

/-- flushBatch (client.ts lines 96-131): clear the scheduled flag, snapshot
and clear the queue, post one request (`transport = none` means the
exchange succeeded, `some e` a transport failure), and fan results out
positionally, or reject the whole snapshot.  The final component counts
requests posted. -/
def flushBatch (st : EngineState) (s : Store) (transport : Option Err) :
    EngineState × Store × List (Nat × Outcome) × Nat :=
  let st1 : EngineState := { st with batchScheduled := false }
  if st1.batchQueue.isEmpty then (st1, s, [], 0)
  else
    let queue := st1.batchQueue
    let st2 : EngineState := { st1 with batchQueue := [] }
    match transport with
    | none =>
      let p := serverBatch s (queue.map (fun i => i.operation))
      (st2, p.2, dispatchResults queue p.1, 1)
    | some e => (st2, s, rejectAll queue e, 1)

/-- An application-level call into the queue. -/
inductive ClientCall where
  | setC (key : String) (value : Val) (ttl : Option Nat)
  | getC (key : String)
  | deleteC (key : String)
  deriving DecidableEq, Repr

/-- The wire operation a call enqueues. -/
def toBatchOp : ClientCall → BatchOp
  | ClientCall.setC k v t => BatchOp.setOp k v t
  | ClientCall.getC k => BatchOp.getOp k
  | ClientCall.deleteC k => BatchOp.deleteOp k

def processCall (st : EngineState) : ClientCall → EngineState × Nat
  | ClientCall.setC k v t => clientSet st k v t
  | ClientCall.getC k => clientGet st k
  | ClientCall.deleteC k => clientDelete st k

/-- Issue a burst of calls within one synchronous unit of work. -/
def processCalls : EngineState → List ClientCall → EngineState × List Nat
  | st, [] => (st, [])
  | st, c :: cs =>
    let p := processCall st c
    let q := processCalls p.1 cs
    (q.1, p.2 :: q.2)

/-- One full batch cycle: issue the calls synchronously, then run the
scheduled microtask (the deferred flushBatch), if one was scheduled. -/
def runTick (s : Store) (calls : List ClientCall) (transport : Option Err) :
    EngineState × Store × List (Nat × Outcome) × Nat :=
  let p := processCalls idleEngine calls
  if p.1.batchScheduled then flushBatch p.1 s transport
  else (p.1, s, [], 0)

/-- The operations of a queue, in order. -/
def queueOps (q : List QueueItem) : List BatchOp :=
  q.map (fun item => item.operation)

/-- Does this call collapse onto an existing queued read instead of
enqueueing (the only case in which nothing is appended)? -/
def collapses (st : EngineState) : ClientCall → Bool
  | ClientCall.getC k => hasQueuedGet st.batchQueue k
  | _ => false

/-- Positional correspondence between a request operation and a response
result: same kind, same key, writes and removes acknowledged. -/
def resMatches : BatchOp → BatchRes → Prop
  | BatchOp.getOp k, r => ∃ v, r = BatchRes.getR k v
  | BatchOp.setOp k _ _, r => r = BatchRes.setR k true
  | BatchOp.deleteOp k, r => r = BatchRes.deleteR k true

theorem scheduleBatch_batchQueue (st : EngineState) :
    (scheduleBatch st).batchQueue = st.batchQueue := by
  unfold scheduleBatch
  split <;> rfl

theorem processCall_append (st : EngineState) (c : ClientCall)
    (h : collapses st c = false) :
    queueOps (processCall st c).1.batchQueue
      = queueOps st.batchQueue ++ [toBatchOp c] := by
  cases c with
  | setC k v t =>
    show queueOps (clientSet st k v t).1.batchQueue = _
    unfold clientSet
    rw [scheduleBatch_batchQueue]
    simp [queueOps, toBatchOp]
  | getC k =>
    show queueOps (clientGet st k).1.batchQueue = _
    unfold clientGet
    have hq : hasQueuedGet st.batchQueue k = false := h
    simp only [hq, Bool.false_eq_true, if_false]
    rw [scheduleBatch_batchQueue]
    simp [queueOps, toBatchOp]
  | deleteC k =>
    show queueOps (clientDelete st k).1.batchQueue = _
    unfold clientDelete
    rw [scheduleBatch_batchQueue]
    simp [queueOps, toBatchOp]

theorem serverBatch_matches (s : Store) (ops : List BatchOp) :
    List.Forall₂ resMatches ops (serverBatch s ops).1 := by
  induction ops generalizing s with
  | nil => exact List.Forall₂.nil
  | cons op rest ih =>
    refine List.Forall₂.cons ?_ (ih (serverOpRun s op).2)
    cases op with
    | getOp k => exact ⟨(storeGet s k).getD Val.vNull, rfl⟩
    | setOp k v t => rfl
    | deleteOp k => rfl

theorem dispatch_positional (q : List QueueItem) (rs : List BatchRes)
    (i : Nat) (hq : i < q.length) (hr : i < rs.length)
    (c : Nat × CallerKind) (hc : c ∈ (q.get ⟨i, hq⟩).callers)
    (v : Val) (hv : resolveValue (rs.get ⟨i, hr⟩) = some v) :
    (c.1, Outcome.fulfilled (callerResolve c.2 v)) ∈ dispatchResults q rs := by
  induction q generalizing rs i with
  | nil => exact absurd hq (by simp)
  | cons item q' ih =>
    cases rs with
    | nil => exact absurd hr (by simp)
    | cons r rs' =>
      cases i with
      | zero =>
        simp only [List.get] at hc hv
        show _ ∈ settleItem item r ++ dispatchResults q' rs'
        apply List.mem_append_left
        unfold settleItem
        rw [hv]
        exact List.mem_map_of_mem _ hc
      | succ j =>
        show _ ∈ settleItem item r ++ dispatchResults q' rs'
        apply List.mem_append_right
        exact ih rs' j (Nat.lt_of_succ_lt_succ hq) (Nat.lt_of_succ_lt_succ hr) hc hv

/-- C3: the flushed batch preserves enqueue order and the response is
consumed positionally.  (1) Every non-collapsing call appends its
operation at the end of the queue, so the snapshot flushBatch posts — the
queue's operations verbatim — lists operations in enqueue order.  (2) The
server answers a batch with one result per operation, in order, result i
matching operation i in kind and key.  (3) The client delivers the result
at position i to (every caller of) the queue item at position i.
(4) A non-empty queue is flushed in exactly one request. -/
theorem batch_order_preserved :
    (∀ (st : EngineState) (c : ClientCall), collapses st c = false →
        queueOps (processCall st c).1.batchQueue
          = queueOps st.batchQueue ++ [toBatchOp c])
  ∧ (∀ (s : Store) (ops : List BatchOp),
        List.Forall₂ resMatches ops (serverBatch s ops).1)
  ∧ (∀ (q : List QueueItem) (rs : List BatchRes) (i : Nat)
        (hq : i < q.length) (hr : i < rs.length) (c : Nat × CallerKind),
        c ∈ (q.get ⟨i, hq⟩).callers →
        ∀ v : Val, resolveValue (rs.get ⟨i, hr⟩) = some v →
        (c.1, Outcome.fulfilled (callerResolve c.2 v)) ∈ dispatchResults q rs)
  ∧ (∀ (st : EngineState) (s : Store), st.batchQueue ≠ [] →
        (flushBatch st s none).2.2.2 = 1) := by
  refine ⟨processCall_append, serverBatch_matches, dispatch_positional, ?_⟩
  intro st s h
  unfold flushBatch
  have : st.batchQueue.isEmpty = false := by
    cases hq : st.batchQueue with
    | nil => exact absurd hq h
    | cons a l => rfl
  simp only [this]
  rfl

/-- Witness for C3: a two-call burst appends in order and flushes once. -/
theorem batch_order_preserved_witness :
    queueOps (processCall (processCall idleEngine
        (ClientCall.setC "a" (Val.vNum 1) none)).1
        (ClientCall.getC "b")).1.batchQueue
      = [BatchOp.setOp "a" (Val.vNum 1) none, BatchOp.getOp "b"]
    ∧ (flushBatch (processCall idleEngine
        (ClientCall.setC "a" (Val.vNum 1) none)).1 [] none).2.2.2 = 1 := by
  constructor
  · have h1 := batch_order_preserved.1 idleEngine
      (ClientCall.setC "a" (Val.vNum 1) none) (by decide)
    have h2 := batch_order_preserved.1
      (processCall idleEngine (ClientCall.setC "a" (Val.vNum 1) none)).1
      (ClientCall.getC "b") (by decide)
    rw [h2, h1]
    rfl
  · exact batch_order_preserved.2.2.2
      (processCall idleEngine (ClientCall.setC "a" (Val.vNum 1) none)).1 []
      (by decide)

theorem rejectAll_all_rejected (q : List QueueItem) (e : Err) :
    ∀ x ∈ rejectAll q e, x.2 = Outcome.rejected e := by
  intro x hx
  unfold rejectAll at hx
  rcases List.mem_flatten.1 hx with ⟨l, hl, hxl⟩
  rcases List.mem_map.1 hl with ⟨item, _, rfl⟩
  rcases List.mem_map.1 hxl with ⟨c, _, rfl⟩
  rfl

theorem rejectAll_mem (q : List QueueItem) (e : Err)
    (item : QueueItem) (hitem : item ∈ q)
    (c : Nat × CallerKind) (hc : c ∈ item.callers) :
    (c.1, Outcome.rejected e) ∈ rejectAll q e := by
  unfold rejectAll
  exact List.mem_flatten.2
    ⟨item.callers.map (fun c => (c.1, Outcome.rejected e)),
     List.mem_map_of_mem _ hitem, List.mem_map_of_mem _ hc⟩

/-- C5: a transport failure of the batch exchange rejects every handle of
every item in the flushed snapshot with the one error, and leaves the
engine with an empty queue and a clear scheduled flag — the next cycle
starts fresh, unaffected — and the store untouched. -/
theorem transport_failure_rejects_snapshot (st : EngineState) (s : Store) (e : Err) :
    (∀ x ∈ (flushBatch st s (some e)).2.2.1, x.2 = Outcome.rejected e)
  ∧ (∀ item ∈ st.batchQueue, ∀ c ∈ item.callers,
        (c.1, Outcome.rejected e) ∈ (flushBatch st s (some e)).2.2.1)
  ∧ (flushBatch st s (some e)).1.batchQueue = []
  ∧ (flushBatch st s (some e)).1.batchScheduled = false
  ∧ (flushBatch st s (some e)).2.1 = s := by
  have hout : (flushBatch st s (some e)).2.2.1
      = if st.batchQueue.isEmpty then [] else rejectAll st.batchQueue e := by
    unfold flushBatch
    by_cases h : st.batchQueue.isEmpty = true <;> simp [h]
  have hq : (flushBatch st s (some e)).1.batchQueue = [] := by
    unfold flushBatch
    by_cases h : st.batchQueue.isEmpty = true
    · simpa [h] using List.isEmpty_iff.1 h
    · simp [h]
  have hsched : (flushBatch st s (some e)).1.batchScheduled = false := by
    unfold flushBatch
    by_cases h : st.batchQueue.isEmpty = true <;> simp [h]
  have hstore : (flushBatch st s (some e)).2.1 = s := by
    unfold flushBatch
    by_cases h : st.batchQueue.isEmpty = true <;> simp [h]
  refine ⟨?_, ?_, hq, hsched, hstore⟩
  · intro x hx
    rw [hout] at hx
    by_cases h : st.batchQueue.isEmpty = true
    · rw [if_pos (by simp [h])] at hx
      simp at hx
    · rw [if_neg (by simp [h])] at hx
      exact rejectAll_all_rejected _ e x hx
  · intro item hitem c hc
    rw [hout]
    have h : st.batchQueue.isEmpty = false := by
      cases hbq : st.batchQueue with
      | nil => rw [hbq] at hitem; simp at hitem
      | cons a l => rfl
    rw [if_neg (by simp [h])]
    exact rejectAll_mem _ e item hitem c hc

/-- Witness for C5: a one-item snapshot is fully rejected. -/
theorem transport_failure_rejects_snapshot_witness :
    ((0 : Nat), Outcome.rejected Err.connectionFailure) ∈
      (flushBatch ⟨[⟨BatchOp.getOp "a", [(0, CallerKind.baseGet)]⟩], true, 1⟩
        [] (some Err.connectionFailure)).2.2.1 :=
  (transport_failure_rejects_snapshot
      ⟨[⟨BatchOp.getOp "a", [(0, CallerKind.baseGet)]⟩], true, 1⟩
      [] Err.connectionFailure).2.1
    ⟨BatchOp.getOp "a", [(0, CallerKind.baseGet)]⟩ (by decide)
    (0, CallerKind.baseGet) (by decide)

/-- A batch snapshot in which the first operation's response is an
explicit per-operation error result and the second is a normal write
acknowledgement.  The result type of the wire format has no error
variant; `errR` stands for the only runtime shape such a result could
take (a JSON object whose op tag is none of get/set/delete). -/
def errorBatchQueue : List QueueItem :=
  [⟨BatchOp.setOp "a" (Val.vNum 1) none, [(0, CallerKind.setCaller)]⟩,
   ⟨BatchOp.setOp "b" (Val.vNum 2) none, [(1, CallerKind.setCaller)]⟩]

def errorBatchResults : List BatchRes :=
  [BatchRes.errR "a" "store_error", BatchRes.setR "b" true]

/-- C6 counterexample: when the result at position 0 is an explicit error
result, the dispatch of flushBatch (client.ts lines 116-126) settles
nothing at all for handle 0 — in particular it does not reject it, as the
claim states; only the sibling's fulfilment is delivered. -/
theorem store_error_not_rejected_counterexample :
    dispatchResults errorBatchQueue errorBatchResults
      = [(1, Outcome.fulfilled Val.vUndefined)] := by
  decide

/-- Checks that a batch result is one the server can produce: get/set/
delete, with writes and removes unconditionally successful. -/
def resOk : BatchRes → Bool
  | BatchRes.getR _ _ => true
  | BatchRes.setR _ b => b
  | BatchRes.deleteR _ b => b
  | BatchRes.errR _ _ => false

def outcomeFulfilled : Outcome → Bool
  | Outcome.fulfilled _ => true
  | Outcome.rejected _ => false

/-- C6 amended: on a successful batch exchange the result dispatch never
rejects any handle — every delivered settlement is a fulfilment (a result
of unrecognised shape settles nothing, leaving its handle pending) — and
the server never produces a per-operation error result in the first
place: every result is a get value or an unconditional write/remove
success. -/
theorem batch_results_never_reject :
    (∀ (q : List QueueItem) (rs : List BatchRes),
        (dispatchResults q rs).all (fun x => outcomeFulfilled x.2) = true)
  ∧ (∀ (s : Store) (ops : List BatchOp),
        ((serverBatch s ops).1).all resOk = true) := by
  constructor
  · intro q rs
    rw [List.all_eq_true]
    intro x hx
    induction q generalizing rs with
    | nil =>
      cases rs with
      | nil => simp [dispatchResults] at hx
      | cons r rs' => simp [dispatchResults] at hx
    | cons item q' ih =>
      cases rs with
      | nil => simp [dispatchResults] at hx
      | cons r rs' =>
        rcases List.mem_append.1 hx with h | h
        · unfold settleItem at h
          cases hr : resolveValue r with
          | none => rw [hr] at h; simp at h
          | some v =>
            rw [hr] at h
            rcases List.mem_map.1 h with ⟨c, _, rfl⟩
            rfl
        · exact ih rs' h
  · intro s ops
    rw [List.all_eq_true]
    intro r hr
    induction ops generalizing s with
    | nil => simp [serverBatch] at hr
    | cons op rest ih =>
      rcases List.mem_cons.1 hr with h | h
      · subst h
        cases op <;> rfl
      · exact ih (serverOpRun s op).2 h

theorem callerResolve_of_ne (k : CallerKind) (w : Val) (h : w ≠ Val.vUndefined) :
    callerResolve k w = w := by
  cases k <;> simp [callerResolve, h]

theorem batchedGet_ne_undefined (s : Store) (key : String)
    (hwf : ∀ en ∈ s, en.value ≠ Val.vUndefined) :
    batchedGet s key ≠ Val.vUndefined := by
  unfold batchedGet
  cases hg : storeGet s key with
  | none => exact fun h => Val.noConfusion h
  | some v =>
    unfold storeGet at hg
    cases hf : s.find? (fun e => e.key == key) with
    | none => rw [hf] at hg; exact absurd hg (by simp)
    | some en =>
      rw [hf] at hg
      have hv : en.value = v := by simpa using hg
      have := hwf en (List.mem_of_find?_eq_some hf)
      rw [hv] at this
      exact this

/-- After the first read for a key is queued, every further read for the
same key in the cycle collapses: it attaches one more listener to the
single queued item and enqueues nothing. -/
theorem processCalls_collapse (key : String) (m : Nat) :
    ∀ (cs : List (Nat × CallerKind)) (n : Nat),
    processCalls ⟨[⟨BatchOp.getOp key, cs⟩], true, n⟩
        (List.replicate m (ClientCall.getC key))
      = (⟨[⟨BatchOp.getOp key,
            cs ++ (List.range' n m).map (fun j => (j, CallerKind.joinedGet))⟩],
          true, n + m⟩,
         List.range' n m) := by
  induction m with
  | zero => intro cs n; simp [processCalls, List.range']
  | succ m ih =>
    intro cs n
    rw [List.replicate_succ]
    have hstep : processCall ⟨[⟨BatchOp.getOp key, cs⟩], true, n⟩ (ClientCall.getC key)
        = (⟨[⟨BatchOp.getOp key, cs ++ [(n, CallerKind.joinedGet)]⟩], true, n + 1⟩, n) := by
      show clientGet _ key = _
      unfold clientGet
      have hhas : hasQueuedGet [⟨BatchOp.getOp key, cs⟩] key = true := by
        simp [hasQueuedGet]
      rw [if_pos (by simp [hhas])]
      unfold attachJoined
      simp
    show (let p := processCall _ (ClientCall.getC key)
          let q := processCalls p.1 (List.replicate m (ClientCall.getC key))
          (q.1, p.2 :: q.2)) = _
    rw [hstep]
    show (let q := processCalls _ (List.replicate m (ClientCall.getC key))
          (q.1, n :: q.2)) = _
    rw [ih (cs ++ [(n, CallerKind.joinedGet)]) (n + 1)]
    have hrange : List.range' n (m + 1) = n :: List.range' (n + 1) m := List.range'_succ n m 1
    have hcallers :
        (cs ++ [(n, CallerKind.joinedGet)])
            ++ (List.range' (n + 1) m).map (fun j => (j, CallerKind.joinedGet))
          = cs ++ (List.range' n (m + 1)).map (fun j => (j, CallerKind.joinedGet)) := by
      rw [hrange, List.map_cons, List.append_assoc]
      rfl
    have hn : n + 1 + m = n + (m + 1) := by omega
    simp only [hcallers, hn, hrange]

/-- C4: a burst of m+1 reads for the same key within one cycle enqueues
exactly one read operation, flushes in exactly one exchange, settles all
m+1 callers, and every caller resolves with the identical value — the
batched read value, which is null when the key is absent.  The store
well-formedness hypothesis (no stored JS undefined, which the wire JSON
cannot carry anyway) covers the one asymmetry in the code: the original
enqueuer's resolve converts undefined to null while collapsed listeners
receive the raw value. -/
theorem get_read_collapsing (s : Store) (key : String) (m : Nat)
    (hwf : ∀ en ∈ s, en.value ≠ Val.vUndefined) :
    queueOps (processCalls idleEngine
        (List.replicate (m + 1) (ClientCall.getC key))).1.batchQueue
      = [BatchOp.getOp key]
  ∧ (runTick s (List.replicate (m + 1) (ClientCall.getC key)) none).2.2.2 = 1
  ∧ (runTick s (List.replicate (m + 1) (ClientCall.getC key)) none).2.2.1.length
      = m + 1
  ∧ (∀ x ∈ (runTick s (List.replicate (m + 1) (ClientCall.getC key)) none).2.2.1,
        x.2 = Outcome.fulfilled (batchedGet s key))
  ∧ (storeGet s key = none →
        ∀ x ∈ (runTick s (List.replicate (m + 1) (ClientCall.getC key)) none).2.2.1,
        x.2 = Outcome.fulfilled Val.vNull) := by
  have hfirst : processCall idleEngine (ClientCall.getC key)
      = (⟨[⟨BatchOp.getOp key, [(0, CallerKind.baseGet)]⟩], true, 1⟩, 0) := by
    show clientGet idleEngine key = _
    unfold clientGet
    rw [if_neg (by simp [hasQueuedGet, idleEngine])]
    simp [idleEngine, scheduleBatch]
  have hstate : processCalls idleEngine (List.replicate (m + 1) (ClientCall.getC key))
      = (⟨[⟨BatchOp.getOp key,
            (0, CallerKind.baseGet)
              :: (List.range' 1 m).map (fun j => (j, CallerKind.joinedGet))⟩],
          true, 1 + m⟩,
         0 :: List.range' 1 m) := by
    rw [List.replicate_succ]
    show (let p := processCall idleEngine (ClientCall.getC key)
          let q := processCalls p.1 (List.replicate m (ClientCall.getC key))
          (q.1, p.2 :: q.2)) = _
    rw [hfirst]
    show (let q := processCalls _ (List.replicate m (ClientCall.getC key))
          (q.1, 0 :: q.2)) = _
    rw [processCalls_collapse key m [(0, CallerKind.baseGet)] 1]
    rfl
  have hw : batchedGet s key = (storeGet s key).getD Val.vNull := by
    unfold batchedGet
    cases storeGet s key <;> rfl
  have hrt : runTick s (List.replicate (m + 1) (ClientCall.getC key)) none
      = flushBatch
          ⟨[⟨BatchOp.getOp key,
              (0, CallerKind.baseGet)
                :: (List.range' 1 m).map (fun j => (j, CallerKind.joinedGet))⟩],
            true, 1 + m⟩ s none := by
    unfold runTick
    rw [hstate]
    rfl
  have houts : (runTick s (List.replicate (m + 1) (ClientCall.getC key)) none).2.2.1
      = ((0, CallerKind.baseGet)
            :: (List.range' 1 m).map (fun j => (j, CallerKind.joinedGet))).map
          (fun c => (c.1, Outcome.fulfilled
            (callerResolve c.2 ((storeGet s key).getD Val.vNull)))) := by
    rw [hrt]
    unfold flushBatch
    simp only [List.isEmpty_cons, if_false, Bool.false_eq_true]
    show dispatchResults _ (serverBatch s [BatchOp.getOp key]).1 = _
    unfold serverBatch serverOpRun
    show dispatchResults _ [BatchRes.getR key ((storeGet s key).getD Val.vNull)] = _
    unfold dispatchResults settleItem resolveValue
    simp [dispatchResults]
  have hreq : (runTick s (List.replicate (m + 1) (ClientCall.getC key)) none).2.2.2
      = 1 := by
    rw [hrt]
    unfold flushBatch
    simp
  have hund : (storeGet s key).getD Val.vNull ≠ Val.vUndefined := by
    rw [← hw]
    exact batchedGet_ne_undefined s key hwf
  refine ⟨?_, hreq, ?_, ?_, ?_⟩
  · rw [hstate]
    rfl
  · rw [houts]
    simp
  · intro x hx
    rw [houts] at hx
    rcases List.mem_map.1 hx with ⟨c, _, rfl⟩
    rw [callerResolve_of_ne c.2 _ hund, hw]
  · intro hnone x hx
    rw [houts] at hx
    rcases List.mem_map.1 hx with ⟨c, _, rfl⟩
    rw [callerResolve_of_ne c.2 _ hund, hnone]
    rfl

/-- Witness for C4: three reads of an absent key, one operation, one
exchange, all three callers resolve null. -/
theorem get_read_collapsing_witness :
    queueOps (processCalls idleEngine
        (List.replicate 3 (ClientCall.getC "user:1"))).1.batchQueue
      = [BatchOp.getOp "user:1"]
    ∧ (runTick [] (List.replicate 3 (ClientCall.getC "user:1")) none).2.2.1.length
      = 3 := by
  have h := get_read_collapsing [] "user:1" 2 (by intro en hen; simp at hen)
  exact ⟨h.1, h.2.2.1⟩

/-!
The HTTP transport (http.ts, HttpClient.request): one fetch per attempt,
with retry-on-network-error logic.  The auth/not-found/type/server error
classes thrown by handleErrorResponse are collapsed into one
`httpFailure` constructor; the retry logic never distinguishes them.
-/

/-- Outcome of one fetch attempt, as classified by HttpClient.request:
a parsed ok response, an abort (the timeout fired), a network error
(isNetworkError), or a non-ok HTTP response (handleErrorResponse throws). -/
inductive AttemptResult where
  | okJson (v : Val)
  | aborted
  | networkFailure
  | httpFailure (status : Nat)
  deriving DecidableEq, Repr

/-- The recursion of HttpClient.request (http.ts lines 71-120).
`transport i` is what the i-th fetch attempt does; `remaining` is the
number of retries still allowed (maxRetries - retryCount).  Only network
errors are retried; a retry that runs out of budget surfaces as a
connection error.  Returns the outcome and the number of fetch attempts
performed. -/
def requestLoop (transport : Nat → AttemptResult) (timeoutMs : Nat) :
    Nat → Nat → Except Err Val × Nat
  | 0, i =>
    match transport i with
    | AttemptResult.okJson v => (Except.ok v, i + 1)
    | AttemptResult.aborted => (Except.error (Err.timeoutFailure timeoutMs), i + 1)
    | AttemptResult.httpFailure st => (Except.error (Err.serverFailure st), i + 1)
    | AttemptResult.networkFailure => (Except.error Err.connectionFailure, i + 1)
  | r + 1, i =>
    match transport i with
    | AttemptResult.okJson v => (Except.ok v, i + 1)
    | AttemptResult.aborted => (Except.error (Err.timeoutFailure timeoutMs), i + 1)
    | AttemptResult.httpFailure st => (Except.error (Err.serverFailure st), i + 1)
    | AttemptResult.networkFailure => requestLoop transport timeoutMs r (i + 1)

/-- HttpClient.request entered with retryCount = 0 (as the batch flush
does through HttpClient.post). -/
def httpRequest (transport : Nat → AttemptResult) (timeoutMs maxRetries : Nat) :
    Except Err Val × Nat :=
  requestLoop transport timeoutMs maxRetries 0

/-- A transport whose first fetch attempt hits a network error and whose
second succeeds. -/
def retryTransport : Nat → AttemptResult :=
  fun i => if i = 0 then AttemptResult.networkFailure else AttemptResult.okJson Val.vNull

/-- C10 counterexample: with the default maxRetries = 3, a flush whose
first fetch attempt fails with a network error performs a second fetch
attempt — the network exchange is attempted twice, not exactly once. -/
theorem request_retries_counterexample :
    httpRequest retryTransport 5000 3 = (Except.ok Val.vNull, 2) := rfl

theorem requestLoop_attempts_le (transport : Nat → AttemptResult) (ms : Nat) :
    ∀ (r i : Nat), (requestLoop transport ms r i).2 ≤ i + r + 1 := by
  intro r
  induction r with
  | zero =>
    intro i
    unfold requestLoop
    cases transport i <;> simp
  | succ r ih =>
    intro i
    unfold requestLoop
    cases transport i
    · simp
    · simp
    · have := ih (i + 1)
      simp only []
      omega
    · simp

/-- C10 amended: the flush engine performs no retries of its own — but
the HTTP transport underneath it does retry network errors, performing up
to maxRetries + 1 fetch attempts per request; any first attempt that is
not a network error ends the request at exactly one attempt; and on a
failed exchange the rejection is delivered to every attached listener of
every completion handle in the flushed snapshot. -/
theorem transport_retry_and_rejection_fanout :
    (∀ (transport : Nat → AttemptResult) (ms mr : Nat),
        (httpRequest transport ms mr).2 ≤ mr + 1)
  ∧ (∀ (transport : Nat → AttemptResult) (ms mr : Nat),
        transport 0 ≠ AttemptResult.networkFailure →
        (httpRequest transport ms mr).2 = 1)
  ∧ (∀ (st : EngineState) (s : Store) (e : Err),
        ∀ item ∈ st.batchQueue, ∀ c ∈ item.callers,
        (c.1, Outcome.rejected e) ∈ (flushBatch st s (some e)).2.2.1) := by
  refine ⟨?_, ?_, ?_⟩
  · intro transport ms mr
    have := requestLoop_attempts_le transport ms mr 0
    unfold httpRequest
    omega
  · intro transport ms mr h0
    unfold httpRequest
    cases mr with
    | zero =>
      unfold requestLoop
      cases h : transport 0
      · rfl
      · rfl
      · exact absurd h h0
      · rfl
    | succ r =>
      unfold requestLoop
      cases h : transport 0
      · rfl
      · rfl
      · exact absurd h h0
      · rfl
  · intro st s e item hitem c hc
    have hout : (flushBatch st s (some e)).2.2.1 = rejectAll st.batchQueue e := by
      unfold flushBatch
      have hne : st.batchQueue.isEmpty = false := by
        cases hbq : st.batchQueue with
        | nil => rw [hbq] at hitem; simp at hitem
        | cons a l => rfl
      simp [hne]
    rw [hout]
    exact rejectAll_mem _ e item hitem c hc

/-- Witness for C10 amended: a transport that succeeds immediately makes
exactly one attempt, and a concrete one-item snapshot failure is
delivered to its handle. -/
theorem transport_retry_and_rejection_fanout_witness :
    (httpRequest (fun _ => AttemptResult.okJson Val.vNull) 5000 3).2 = 1
    ∧ ((7 : Nat), Outcome.rejected Err.connectionFailure) ∈
        (flushBatch ⟨[⟨BatchOp.deleteOp "k", [(7, CallerKind.deleteCaller)]⟩], true, 8⟩
          [] (some Err.connectionFailure)).2.2.1 :=
  ⟨transport_retry_and_rejection_fanout.2.1
      (fun _ => AttemptResult.okJson Val.vNull) 5000 3 (by decide),
   transport_retry_and_rejection_fanout.2.2
      ⟨[⟨BatchOp.deleteOp "k", [(7, CallerKind.deleteCaller)]⟩], true, 8⟩
      [] Err.connectionFailure
      ⟨BatchOp.deleteOp "k", [(7, CallerKind.deleteCaller)]⟩ (by decide)
      (7, CallerKind.deleteCaller) (by decide)⟩

/-!
The single-flight registry of remember (client.ts lines 52, 597-634),
restricted to one key.  In the single-threaded host, the registry check,
the creation of the promise (whose body runs synchronously up to its
first await, the read), and the registry insertion all happen without any
suspension in between; every later remember call made before the body
settles therefore finds and returns the registered promise.  The body
itself runs one rememberSeq and, in its finally, deletes the registry
entry before the promise settles.
-/

/-- Registry state for one key: the registered in-flight promise id, the
next fresh promise id, and the promise bodies created so far (in creation
order). -/
structure SFState where
  entry : Option Nat
  nextId : Nat
  started : List Nat
  deriving DecidableEq, Repr

/-- One remember call arriving while nothing has settled yet: an existing
entry is returned as is (the caller collapses onto it); otherwise a fresh
promise is created, registered, and its body started. -/
def rememberEnter (st : SFState) : SFState × Nat :=
  match st.entry with
  | some p => (st, p)
  | none => (⟨some st.nextId, st.nextId + 1, st.started ++ [st.nextId]⟩, st.nextId)

/-- A burst of n remember calls for the key, all arriving before the
first one's body settles. -/
def rememberEnterAll : SFState → Nat → SFState × List Nat
  | st, 0 => (st, [])
  | st, n + 1 =>
    let p := rememberEnter st
    let q := rememberEnterAll p.1 n
    (q.1, p.2 :: q.2)

/-- Run the started bodies to settlement, in order.  Each body performs
one fetch-or-compute-and-store sequence against the current store and
then — success or failure alike — deletes the registry entry (the finally
in client.ts lines 624-627).  Returns the final registry state, the final
store, each promise's settled outcome, and the number of producer
invocations. -/
def runBodies (key : String) (ttl : Option Nat) (producer : Except Err Val) :
    SFState → Store → List Nat → SFState × Store × List (Nat × Except Err Val) × Nat
  | st, s, [] => (st, s, [], 0)
  | st, s, p :: rest =>
    let r := rememberSeq s key ttl producer none none
    let st1 : SFState := { st with entry := none }
    let q := runBodies key ttl producer st1 r.2.1 rest
    (q.1, q.2.1, (p, r.1) :: q.2.2.1, (if r.2.2 then 1 else 0) + q.2.2.2)

/-- The whole scenario: n concurrent remember calls for one key, then
settlement.  Returns each caller's outcome (looked up through the promise
it was handed), the final store, the total number of producer
invocations, and the registry entry left after settlement. -/
def concurrentRemember (n : Nat) (s : Store) (key : String) (ttl : Option Nat)
    (producer : Except Err Val) :
    List (Option (Except Err Val)) × Store × Nat × Option Nat :=
  let p := rememberEnterAll ⟨none, 0, []⟩ n
  let q := runBodies key ttl producer p.1 s p.1.started
  (p.2.map (fun h => (q.2.2.1.find? (fun o => o.1 == h)).map (fun o => o.2)),
   q.2.1, q.2.2.2, q.1.entry)

theorem rememberEnterAll_inflight (m : Nat) :
    ∀ (st : SFState) (p : Nat), st.entry = some p →
    rememberEnterAll st m = (st, List.replicate m p) := by
  induction m with
  | zero => intro st p _; rfl
  | succ m ih =>
    intro st p hp
    unfold rememberEnterAll rememberEnter
    rw [hp]
    show (let q := rememberEnterAll st m; (q.1, p :: q.2)) = _
    rw [ih st p hp]
    rfl

/-- C1: n ≥ 1 remember calls for the same (uncached) key, all issued
before the first settles, share one in-flight promise: the producer runs
exactly once, every caller resolves with the identical produced value,
the value is stored, and after settlement the registry holds no entry for
the key. -/
theorem remember_single_flight (n : Nat) (s : Store) (key : String)
    (ttl : Option Nat) (v : Val)
    (hn : 1 ≤ n) (hmiss : storeGet s key = none) :
    concurrentRemember n s key ttl (Except.ok v)
      = (List.replicate n (some (Except.ok v)), batchedSet s key v ttl, 1, none) := by
  obtain ⟨m, rfl⟩ : ∃ m, n = m + 1 := ⟨n - 1, by omega⟩
  have hb : batchedGet s key = Val.vNull := by simp [batchedGet, hmiss]
  have hseq : rememberSeq s key ttl (Except.ok v) none none
      = (Except.ok v, batchedSet s key v ttl, true) := by
    simp [rememberSeq, hb]
  have henter : rememberEnterAll ⟨none, 0, []⟩ (m + 1)
      = (⟨some 0, 1, [0]⟩, 0 :: List.replicate m 0) := by
    unfold rememberEnterAll rememberEnter
    show (let q := rememberEnterAll ⟨some 0, 1, [0]⟩ m; (q.1, 0 :: q.2)) = _
    rw [rememberEnterAll_inflight m ⟨some 0, 1, [0]⟩ 0 rfl]
  have hrun : runBodies key ttl (Except.ok v) ⟨some 0, 1, [0]⟩ s [0]
      = (⟨none, 1, [0]⟩, batchedSet s key v ttl, [(0, Except.ok v)], 1) := by
    unfold runBodies
    rw [hseq]
    rfl
  unfold concurrentRemember
  rw [henter]
  show (let q := runBodies key ttl (Except.ok v) ⟨some 0, 1, [0]⟩ s [0]
        ((0 :: List.replicate m 0).map
            (fun h => (q.2.2.1.find? (fun o => o.1 == h)).map (fun o => o.2)),
         q.2.1, q.2.2.2, q.1.entry)) = _
  rw [hrun]
  show ((0 :: List.replicate m 0).map
          (fun h => (([(0, Except.ok v)].find? (fun o => o.1 == h)).map (fun o => o.2))),
        batchedSet s key v ttl, 1, none) = _
  have hmap : (0 :: List.replicate m 0).map
        (fun h => (([((0 : Nat), Except.ok (ε := Err) v)].find?
            (fun o => o.1 == h)).map (fun o => o.2)))
      = List.replicate (m + 1) (some (Except.ok v)) := by
    rw [← List.replicate_succ]
    rw [List.map_replicate]
    simp [List.find?]
  rw [hmap]

/-- Witness for C1: five concurrent remember calls on an empty store. -/
theorem remember_single_flight_witness :
    concurrentRemember 5 [] "K" none (Except.ok (Val.vNum 42))
      = (List.replicate 5 (some (Except.ok (Val.vNum 42))),
         batchedSet [] "K" (Val.vNum 42) none, 1, none) :=
  remember_single_flight 5 [] "K" none (Val.vNum 42) (by decide) (by decide)

/-!
rememberAll in optimized mode (client.ts lines 690-770 with listTTL set).
The freshness marker key is prefix ++ "__list__"; the exists check goes
through the batched get (null means absent); the marker-present path
rebuilds the items from a prefix scan; the marker-absent path invokes the
producer, batch-writes every item, then writes the marker.
-/

/-- One run of the optimized-mode rememberAll body for a prefix: returns
the settled outcome, the resulting store, and whether the producer was
invoked. -/
def rememberAllOpt (s : Store) (pre : String) (producer : Except Err (List Val))
    (keyOf : Val → String) (ttl : Option Nat) (listTTL : Nat) :
    Except Err (List Val) × Store × Bool :=
  let markerKey := pre ++ "__list__"
  if batchedGet s markerKey ≠ Val.vNull then
    (Except.ok ((scanStore s pre).map (fun kv => kv.2)), s, false)
  else
    match producer with
    | Except.error e => (Except.error e, s, true)
    | Except.ok items =>
      let s1 := (serverBatch s
        (items.map (fun it => BatchOp.setOp (pre ++ keyOf it) it ttl))).2
      let s2 := batchedSet s1 markerKey (Val.vBool true) (some listTTL)
      (Except.ok items, s2, true)

theorem rememberAllOpt_marker_present (s : Store) (pre : String)
    (producer : Except Err (List Val)) (keyOf : Val → String)
    (ttl : Option Nat) (listTTL : Nat)
    (h : batchedGet s (pre ++ "__list__") ≠ Val.vNull) :
    rememberAllOpt s pre producer keyOf ttl listTTL
      = (Except.ok ((scanStore s pre).map (fun kv => kv.2)), s, false) := by
  unfold rememberAllOpt
  rw [if_pos h]

theorem serverBatch_sets_find_other (keyOf : Val → String) (pre : String)
    (ttl : Option Nat) (k : String) :
    ∀ (items : List Val) (s : Store),
    (∀ it ∈ items, pre ++ keyOf it ≠ k) →
    storeFind (serverBatch s
        (items.map (fun it => BatchOp.setOp (pre ++ keyOf it) it ttl))).2 k
      = storeFind s k := by
  intro items
  induction items with
  | nil => intro s _; rfl
  | cons it0 rest ih =>
    intro s hne
    show storeFind (serverBatch
        (storePut s (pre ++ keyOf it0) it0 (effTtl ttl))
        (rest.map (fun it => BatchOp.setOp (pre ++ keyOf it) it ttl))).2 k = _
    rw [ih (storePut s (pre ++ keyOf it0) it0 (effTtl ttl))
        (fun it hit => hne it (List.mem_cons_of_mem it0 hit))]
    exact storeFind_storePut_other s (pre ++ keyOf it0) k it0 (effTtl ttl)
      (fun hc => hne it0 (List.mem_cons_self it0 rest) hc.symm)

theorem serverBatch_sets_find_self (keyOf : Val → String) (pre : String)
    (ttl : Option Nat) :
    ∀ (items : List Val) (s : Store),
    (items.map (fun it => pre ++ keyOf it)).Nodup →
    ∀ it ∈ items,
    storeFind (serverBatch s
        (items.map (fun it => BatchOp.setOp (pre ++ keyOf it) it ttl))).2
      (pre ++ keyOf it)
      = some ⟨pre ++ keyOf it, it, effTtl ttl⟩ := by
  intro items
  induction items with
  | nil => intro s _ it hit; simp at hit
  | cons it0 rest ih =>
    intro s hnd it hit
    have hnd' := hnd
    rw [List.map_cons, List.nodup_cons] at hnd'
    rcases List.mem_cons.1 hit with rfl | hmem
    · show storeFind (serverBatch
          (storePut s (pre ++ keyOf it) it (effTtl ttl))
          (rest.map (fun x => BatchOp.setOp (pre ++ keyOf x) x ttl))).2
          (pre ++ keyOf it) = _
      rw [serverBatch_sets_find_other keyOf pre ttl (pre ++ keyOf it) rest _
          (fun x hx hc => hnd'.1 (hc ▸ List.mem_map_of_mem (fun y => pre ++ keyOf y) hx))]
      exact storeFind_storePut_self s (pre ++ keyOf it) it (effTtl ttl)
    · show storeFind (serverBatch
          (storePut s (pre ++ keyOf it0) it0 (effTtl ttl))
          (rest.map (fun x => BatchOp.setOp (pre ++ keyOf x) x ttl))).2
          (pre ++ keyOf it) = _
      exact ih (storePut s (pre ++ keyOf it0) it0 (effTtl ttl)) hnd'.2 it hmem

/-- C8: optimized-mode rememberAll.  Marker present: the producer is not
invoked and the result is the values read back by a prefix scan of the
store.  Marker absent: the producer is invoked, every returned item is
cached under prefix ++ keyOf(item) with the given ttl, the freshness
marker is written under prefix ++ "__list__" with expiry listTTL, and the
freshly fetched items are returned.  (The marker-absent conclusions
assume the item keys are pairwise distinct and distinct from the marker
key; otherwise a later write of the same key overwrites an earlier one.) -/
theorem rememberAll_freshness_marker
    (s : Store) (pre : String) (items : List Val) (keyOf : Val → String)
    (ttl : Option Nat) (listTTL : Nat) :
    (batchedGet s (pre ++ "__list__") ≠ Val.vNull →
        rememberAllOpt s pre (Except.ok items) keyOf ttl listTTL
          = (Except.ok ((scanStore s pre).map (fun kv => kv.2)), s, false))
  ∧ (batchedGet s (pre ++ "__list__") = Val.vNull →
        (items.map (fun it => pre ++ keyOf it)).Nodup →
        (∀ it ∈ items, pre ++ keyOf it ≠ pre ++ "__list__") →
        (rememberAllOpt s pre (Except.ok items) keyOf ttl listTTL).1
            = Except.ok items
        ∧ (rememberAllOpt s pre (Except.ok items) keyOf ttl listTTL).2.2 = true
        ∧ (∀ it ∈ items,
            storeFind (rememberAllOpt s pre (Except.ok items) keyOf ttl
                listTTL).2.1 (pre ++ keyOf it)
              = some ⟨pre ++ keyOf it, it, effTtl ttl⟩)
        ∧ storeFind (rememberAllOpt s pre (Except.ok items) keyOf ttl
              listTTL).2.1 (pre ++ "__list__")
            = some ⟨pre ++ "__list__", Val.vBool true, effTtl (some listTTL)⟩) := by
  constructor
  · exact rememberAllOpt_marker_present s pre (Except.ok items) keyOf ttl listTTL
  · intro hb hnd hnm
    have hbranch : rememberAllOpt s pre (Except.ok items) keyOf ttl listTTL
        = (Except.ok items,
           batchedSet
             ((serverBatch s (items.map
                (fun it => BatchOp.setOp (pre ++ keyOf it) it ttl))).2)
             (pre ++ "__list__") (Val.vBool true) (some listTTL),
           true) := by
      unfold rememberAllOpt
      rw [if_neg (by simp [hb])]
    rw [hbranch]
    refine ⟨rfl, rfl, ?_, ?_⟩
    · intro it hit
      show storeFind (storePut _ (pre ++ "__list__") (Val.vBool true)
          (effTtl (some listTTL))) (pre ++ keyOf it) = _
      rw [storeFind_storePut_other _ (pre ++ "__list__") (pre ++ keyOf it)
          (Val.vBool true) (effTtl (some listTTL)) (hnm it hit)]
      exact serverBatch_sets_find_self keyOf pre ttl items s hnd it hit
    · exact storeFind_storePut_self _ (pre ++ "__list__") (Val.vBool true)
        (effTtl (some listTTL))

/-- Witness for C8: one item fetched and cached on an empty store. -/
theorem rememberAll_freshness_marker_witness :
    (rememberAllOpt [] "user:" (Except.ok [Val.vNum 1])
        (fun _ => "1") none 60).1 = Except.ok [Val.vNum 1]
    ∧ storeFind (rememberAllOpt [] "user:" (Except.ok [Val.vNum 1])
        (fun _ => "1") none 60).2.1 ("user:" ++ "__list__")
      = some ⟨"user:" ++ "__list__", Val.vBool true, effTtl (some 60)⟩ := by
  have h := (rememberAll_freshness_marker [] "user:" [Val.vNum 1]
      (fun _ => "1") none 60).2 (by decide) (by decide)
      (by intro it hit; decide)
  exact ⟨h.1, h.2.2.2⟩

theorem isPrefixOf_append_self (l q : List Char) :
    l.isPrefixOf (l ++ q) = true := by
  induction l with
  | nil => simp [List.isPrefixOf]
  | cons a l ih => simp [List.isPrefixOf, ih]

theorem startsWith_append_self (p q : String) :
    startsWith p (p ++ q) = true := by
  unfold startsWith
  cases p with
  | mk pd =>
    cases q with
    | mk qd => exact isPrefixOf_append_self pd qd

theorem scanStore_mem (s : Store) (pre k : String) (v : Val)
    (hv : storeGet s k = some v) (hpre : startsWith pre k = true) :
    (k, v) ∈ scanStore s pre := by
  unfold scanStore
  unfold storeGet at hv
  cases hf : s.find? (fun e => e.key == k) with
  | none => rw [hf] at hv; exact absurd hv (by simp)
  | some en =>
    rw [hf] at hv
    have hkey : en.key = k := by
      have := List.find?_some hf
      simpa using this
    have hmem : k ∈ storeKeys s := by
      unfold storeKeys
      rw [← hkey]
      exact List.mem_map_of_mem (fun e => e.key) (List.mem_of_find?_eq_some hf)
    have hfil : k ∈ (storeKeys s).filter (fun x => startsWith pre x) :=
      List.mem_filter.2 ⟨hmem, hpre⟩
    have : (k, (storeGet s k).getD Val.vNull)
        ∈ ((storeKeys s).filter (fun x => startsWith pre x)).map
            (fun x => (x, (storeGet s x).getD Val.vNull)) :=
      List.mem_map_of_mem _ hfil
    have hgd : (storeGet s k).getD Val.vNull = v := by
      unfold storeGet
      rw [hf]
      simpa using hv
    rwa [hgd] at this

/-- C9: the freshness marker lives at prefix ++ "__list__", a key that
itself begins with the prefix; hence, on an optimized-mode call that
finds the marker present, the prefix scan rebuilding the result includes
the marker's own entry, and the returned items contain the marker's
sentinel value true alongside the cached members. -/
theorem rememberAll_marker_leaks_into_items
    (s : Store) (pre : String) (items : List Val) (keyOf : Val → String)
    (ttl : Option Nat) (listTTL : Nat)
    (hm : storeGet s (pre ++ "__list__") = some (Val.vBool true)) :
    startsWith pre (pre ++ "__list__") = true
  ∧ rememberAllOpt s pre (Except.ok items) keyOf ttl listTTL
      = (Except.ok ((scanStore s pre).map (fun kv => kv.2)), s, false)
  ∧ Val.vBool true ∈ (scanStore s pre).map (fun kv => kv.2) := by
  have hpre := startsWith_append_self pre "__list__"
  have hbg : batchedGet s (pre ++ "__list__") = Val.vBool true := by
    simp [batchedGet, hm]
  refine ⟨hpre, ?_, ?_⟩
  · exact rememberAllOpt_marker_present s pre (Except.ok items) keyOf ttl listTTL
      (by rw [hbg]; exact fun h => Val.noConfusion h)
  · have hmem := scanStore_mem s pre (pre ++ "__list__") (Val.vBool true) hm hpre
    have := List.mem_map_of_mem (fun kv : String × Val => kv.2) hmem
    exact this

/-- Witness for C9: a store holding only the marker; the scan returns the
sentinel itself. -/
theorem rememberAll_marker_leaks_into_items_witness :
    startsWith "user:" ("user:" ++ "__list__") = true
    ∧ Val.vBool true ∈
        (scanStore [⟨"user:__list__", Val.vBool true, some 60⟩] "user:").map
          (fun kv => kv.2) := by
  have h := rememberAll_marker_leaks_into_items
    [⟨"user:__list__", Val.vBool true, some 60⟩] "user:" [] (fun _ => "x")
    none 60 (by decide)
  exact ⟨h.1, h.2.2⟩

end LixCache
